import Mathlib

/-!
Verification of the ingestion-and-retrieval core of qPro (`app/rag.py`):
text chunking, metadata coercion, embedding calls, resilient vector-store
initialization, ingestion, JSON extraction from model output and the
generation orchestrator's fallback logic.

Python values are shallowly embedded as the inductive `PyVal`; fallible
Python code (code that may raise) is embedded as `Except String`-valued
functions; external collaborators (the chromadb collection, the ollama
embedding and chat models) are abstracted as explicit parameters or
oracles, following the spec's collaborator contracts.
-/

namespace QPro

/-! ## Characters and decimal rendering -/

/-- Whitespace as recognized by Python's `str.strip()` / `str.isspace()` and
by the regex class used in `_extract_json` (ASCII fragment: space, tab,
newline, carriage return, vertical tab, form feed). -/
def isPySpace (c : Char) : Bool :=
  c = ' ' || c = '\t' || c = '\n' || c = '\r' || c = '\x0b' || c = '\x0c'

/-- Whitespace accepted between tokens by Python's strict `json.loads`
(space, tab, newline, carriage return only). -/
def isJsonWs (c : Char) : Bool :=
  c = ' ' || c = '\t' || c = '\n' || c = '\r'

def digitChar (n : Nat) : Char := Char.ofNat (48 + n)

def isDigitChar (c : Char) : Bool := 48 ≤ c.toNat && c.toNat ≤ 57

/-- Decimal digits of `n`, most significant first; `fuel` bounds the
recursion (`fuel > n` is always sufficient). -/
def decDigits : Nat → Nat → List Char
  | 0, _ => []
  | fuel + 1, n =>
    if n < 10 then [digitChar n]
    else decDigits fuel (n / 10) ++ [digitChar (n % 10)]

/-- Model of Python `str()` / f-string formatting of a nonnegative integer. -/
def natToDecimal (n : Nat) : String := String.mk (decDigits (n + 1) n)

/-- Model of Python `str()` / f-string formatting of an integer. -/
def intToDecimal (n : Int) : String :=
  if n < 0 then "-" ++ natToDecimal (-n).toNat else natToDecimal n.toNat

/-- Zero-padding to two digits, as in `date.isoformat()` fields. -/
def pad2 (n : Nat) : String :=
  if n < 10 then "0" ++ natToDecimal n else natToDecimal n

/-- Zero-padding to four digits, as in the year of `date.isoformat()`. -/
def pad4 (n : Nat) : String :=
  if n < 10 then "000" ++ natToDecimal n
  else if n < 100 then "00" ++ natToDecimal n
  else if n < 1000 then "0" ++ natToDecimal n
  else natToDecimal n

/-- Model of `datetime.date.isoformat()`: `YYYY-MM-DD`. -/
def isoDate (y m d : Nat) : String :=
  pad4 y ++ "-" ++ pad2 m ++ "-" ++ pad2 d

/-- Model of `datetime.datetime.isoformat()` (zero microseconds):
`YYYY-MM-DDTHH:MM:SS`. -/
def isoDateTime (y mo d h mi s : Nat) : String :=
  isoDate y mo d ++ "T" ++ pad2 h ++ ":" ++ pad2 mi ++ ":" ++ pad2 s

/-! ## Python values

`PyVal` embeds the Python values that flow through `app/rag.py`:
JSON-native scalars, `None`, lists, string-keyed dicts, `datetime.date`,
`datetime.datetime`, and arbitrary other objects represented by their
`str()` text. Python floats are modelled as rationals. -/

inductive PyVal : Type where
  | str (s : String)
  | int (n : Int)
  | float (q : Rat)
  | bool (b : Bool)
  | none
  | list (xs : List PyVal)
  | dict (entries : List (String × PyVal))
  | date (y m d : Nat)
  | datetime (y mo d h mi s : Nat)
  | obj (reprText : String)

/-- Python truthiness (`bool(v)`), used by the `x or y` idiom in
`generate_application`'s key normalization. -/
def pyTruthy : PyVal → Bool
  | .str s => s ≠ ""
  | .int n => n ≠ 0
  | .float q => q ≠ 0
  | .bool b => b
  | .none => false
  | .list [] => false
  | .list (_ :: _) => true
  | .dict [] => false
  | .dict (_ :: _) => true
  | .date _ _ _ => true
  | .datetime _ _ _ _ _ _ => true
  | .obj _ => true

/-- Python `x or y`. -/
def pyOr (a b : PyVal) : PyVal := if pyTruthy a then a else b

/-- Model of Python `str(v)` / f-string formatting. Only the scalar cases
are ever reached by `ingest_text`'s id derivation, because coerced
metadata is scalar-or-`None` only; containers are given placeholder text. -/
def pyStrOf : PyVal → String
  | .str s => s
  | .int n => intToDecimal n
  | .float q => toString q
  | .bool b => if b then "True" else "False"
  | .none => "None"
  | .list _ => "<list>"
  | .dict _ => "<dict>"
  | .date y m d => isoDate y m d
  | .datetime y mo d h mi s => isoDate y mo d ++ " " ++ pad2 h ++ ":" ++ pad2 mi ++ ":" ++ pad2 s
  | .obj r => r

/-- Python `dict.get(k)` with default `None` left to the caller:
first (only) binding of `k`, if any. -/
def pyLookup (es : List (String × PyVal)) (k : String) : Option PyVal :=
  (es.find? (fun p => p.1 == k)).map (·.2)

/-- Python `k in d`. -/
def hasKey (es : List (String × PyVal)) (k : String) : Bool :=
  es.any (fun p => p.1 == k)

/-- Python `d.get(k)` (default `None`). -/
def pyGetNone (es : List (String × PyVal)) (k : String) : PyVal :=
  (pyLookup es k).getD .none

/-- Python `d.setdefault(k, v)`: insert `k ↦ v` only when `k` is absent. -/
def pySetdefault (es : List (String × PyVal)) (k : String) (v : PyVal) :
    List (String × PyVal) :=
  if hasKey es k then es else es ++ [(k, v)]

/-- Python `d[k] = v` on an insertion-ordered dict: replace in place when
the key exists, append otherwise. -/
def pyDictSet (es : List (String × PyVal)) (k : String) (v : PyVal) :
    List (String × PyVal) :=
  if hasKey es k then es.map (fun p => if p.1 == k then (k, v) else p)
  else es ++ [(k, v)]

/-! ## `json.dumps` (used by `_coerce_meta` for list/dict values)

Model of Python's `json.dumps(v, ensure_ascii=False)` with its default
separators `", "` and `": "`. Values outside the JSON-native types make it
raise `TypeError: Object of type ... is not JSON serializable`; the model
returns `Except.error` with that message. -/

def hexDigit (n : Nat) : Char :=
  if n < 10 then digitChar n else Char.ofNat (87 + n)

/-- Escaping of one character inside a JSON string literal, as
`json.dumps` performs with `ensure_ascii=False`. -/
def jsonEscapeChar (c : Char) : List Char :=
  if c = '"' then ['\\', '"']
  else if c = '\\' then ['\\', '\\']
  else if c = '\n' then ['\\', 'n']
  else if c = '\t' then ['\\', 't']
  else if c = '\r' then ['\\', 'r']
  else if c = '\x08' then ['\\', 'b']
  else if c = '\x0c' then ['\\', 'f']
  else if c.toNat < 32 then
    ['\\', 'u', '0', '0', hexDigit (c.toNat / 16), hexDigit (c.toNat % 16)]
  else [c]

def jsonEscape : List Char → List Char
  | [] => []
  | c :: rest => jsonEscapeChar c ++ jsonEscape rest

/-- A JSON string literal for `s`. -/
def jsonQuote (s : String) : String :=
  "\"" ++ String.mk (jsonEscape s.data) ++ "\""

/-- Rendering of a float for JSON output (model: decimal text of the
rational). Never reached by the claims below. -/
def jsonFloatText (q : Rat) : String := toString q

mutual

/-- Model of `json.dumps(v, ensure_ascii=False)`. -/
def jsonDumps : PyVal → Except String String
  | .str s => .ok (jsonQuote s)
  | .int n => .ok (intToDecimal n)
  | .float q => .ok (jsonFloatText q)
  | .bool b => .ok (if b then "true" else "false")
  | .none => .ok "null"
  | .list xs =>
    match jsonDumpsArr xs with
    | .ok body => .ok ("[" ++ body ++ "]")
    | .error e => .error e
  | .dict es =>
    match jsonDumpsObj es with
    | .ok body => .ok ("\x7b" ++ body ++ "\x7d")
    | .error e => .error e
  | .date _ _ _ => .error "Object of type date is not JSON serializable"
  | .datetime _ _ _ _ _ _ => .error "Object of type datetime is not JSON serializable"
  | .obj _ => .error "Object is not JSON serializable"

/-- Array elements joined by `", "`. -/
def jsonDumpsArr : List PyVal → Except String String
  | [] => .ok ""
  | [x] => jsonDumps x
  | x :: y :: rest =>
    match jsonDumps x with
    | .error e => .error e
    | .ok a =>
      match jsonDumpsArr (y :: rest) with
      | .error e => .error e
      | .ok b => .ok (a ++ ", " ++ b)

/-- Object members `"k": v` joined by `", "`. -/
def jsonDumpsObj : List (String × PyVal) → Except String String
  | [] => .ok ""
  | [(k, v)] =>
    match jsonDumps v with
    | .error e => .error e
    | .ok a => .ok (jsonQuote k ++ ": " ++ a)
  | (k, v) :: p :: rest =>
    match jsonDumps v with
    | .error e => .error e
    | .ok a =>
      match jsonDumpsObj (p :: rest) with
      | .error e => .error e
      | .ok b => .ok (jsonQuote k ++ ": " ++ a ++ ", " ++ b)

end

/-! ## Metadata coercion (`_coerce_meta`, rag.py lines 115–128) -/

/-- One value of `_coerce_meta`'s loop body: scalars and `None` pass
through, lists/dicts go through `json.dumps`, dates through `isoformat()`,
anything else through `str()`. A `json.dumps` failure (a list or dict
containing a non-JSON-serializable value such as a date) propagates. -/
def coerceVal : PyVal → Except String PyVal
  | .str s => .ok (.str s)
  | .int n => .ok (.int n)
  | .float q => .ok (.float q)
  | .bool b => .ok (.bool b)
  | .none => .ok .none
  | .list xs =>
    match jsonDumps (.list xs) with
    | .ok t => .ok (.str t)
    | .error e => .error e
  | .dict es =>
    match jsonDumps (.dict es) with
    | .ok t => .ok (.str t)
    | .error e => .error e
  | .date y m d => .ok (.str (isoDate y m d))
  | .datetime y mo d h mi s => .ok (.str (isoDateTime y mo d h mi s))
  | .obj r => .ok (.str r)

/-- Model of `_coerce_meta`: coerce every entry in order; the first exception
raised inside the loop propagates. -/
def coerceMeta : List (String × PyVal) → Except String (List (String × PyVal))
  | [] => .ok []
  | (k, v) :: rest =>
    match coerceVal v with
    | .error e => .error e
    | .ok fv =>
      match coerceMeta rest with
      | .error e => .error e
      | .ok frest => .ok ((k, fv) :: frest)

/-! ## Chunker (`_chunk`, rag.py lines 102–112) -/

/-- The loop stride `step = max(1, chunk - overlap)`. -/
def chunkStep (size overlap : Nat) : Nat := max 1 (size - overlap)

/-- The `while i < n` loop of `_chunk`, advancing by `s1 + 1` characters
per iteration (the stride is at least 1 by construction). `fuel` bounds
the number of iterations; `fuel ≥ text.length - i` is always sufficient
because every iteration advances `i` by at least one. A window that is
empty or all-whitespace stops the loop (`if not piece.strip(): break`). -/
def chunkFromAux (text : List Char) (size s1 : Nat) : Nat → Nat → List (List Char)
  | 0, _ => []
  | fuel + 1, i =>
    if i < text.length then
      let piece := (text.drop i).take size
      if piece.all isPySpace then []
      else piece :: chunkFromAux text size s1 fuel (i + s1 + 1)
    else []

/-- Model of `_chunk(text, chunk=900, overlap=150)`. -/
def pyChunk (text : List Char) (size overlap : Nat) : List (List Char) :=
  chunkFromAux text size (chunkStep size overlap - 1) text.length 0

/-- Concatenation of the chunks' unique (non-overlapping) spans: all but
the last chunk contribute their first `s` characters, the last chunk
contributes itself. -/
def joinSpans (s : Nat) : List (List Char) → List Char
  | [] => []
  | [c] => c
  | c :: c2 :: rest => c.take s ++ joinSpans s (c2 :: rest)

/-! ## `json.loads` (used by `_extract_json`)

A recursive-descent model of Python's strict `json.loads`: JSON values
only, no repair, no trailing data, unknown escapes and raw control
characters inside strings rejected, object keys last-one-wins. `fuel`
bounds the recursion; `2 * length + 8` is always sufficient because every
recursive call follows the consumption of at least one character. -/

/-- Value of one hexadecimal digit in a `\uXXXX` escape. -/
def jsonHexVal (c : Char) : Option Nat :=
  if 48 ≤ c.toNat ∧ c.toNat ≤ 57 then some (c.toNat - 48)
  else if 97 ≤ c.toNat ∧ c.toNat ≤ 102 then some (c.toNat - 87)
  else if 65 ≤ c.toNat ∧ c.toNat ≤ 70 then some (c.toNat - 55)
  else Option.none

/-- Parse the remainder of a JSON string literal after the opening quote.
Returns the decoded text and the input after the closing quote. -/
def parseStringRest : List Char → List Char → Option (String × List Char)
  | [], _ => Option.none
  | '"' :: r, acc => some (String.mk acc, r)
  | '\\' :: e :: r, acc =>
    if e = '"' then parseStringRest r (acc ++ ['"'])
    else if e = '\\' then parseStringRest r (acc ++ ['\\'])
    else if e = '/' then parseStringRest r (acc ++ ['/'])
    else if e = 'b' then parseStringRest r (acc ++ ['\x08'])
    else if e = 'f' then parseStringRest r (acc ++ ['\x0c'])
    else if e = 'n' then parseStringRest r (acc ++ ['\n'])
    else if e = 'r' then parseStringRest r (acc ++ ['\r'])
    else if e = 't' then parseStringRest r (acc ++ ['\t'])
    else if e = 'u' then
      match r with
      | h1 :: h2 :: h3 :: h4 :: r2 =>
        match jsonHexVal h1, jsonHexVal h2, jsonHexVal h3, jsonHexVal h4 with
        | some a, some b, some c, some d =>
          parseStringRest r2 (acc ++ [Char.ofNat (((a * 16 + b) * 16 + c) * 16 + d)])
        | _, _, _, _ => Option.none
      | _ => Option.none
    else Option.none
  | c :: r, acc =>
    if c.toNat < 32 then Option.none else parseStringRest r (acc ++ [c])

def digitsToNat (ds : List Char) : Nat :=
  ds.foldl (fun acc c => 10 * acc + (c.toNat - 48)) 0

/-- Parse a JSON number at the head of the input. Integer literals (no
fraction, no exponent) produce `PyVal.int`; anything else produces a
float, here an exact rational. -/
def parseNumber (t : List Char) : Option (PyVal × List Char) :=
  let (neg, t1) := match t with
    | '-' :: r => (true, r)
    | _ => (false, t)
  match t1 with
  | c :: _ =>
    if ¬ (isDigitChar c = true) then Option.none
    else
      let (intDs, r1) :=
        if c = '0' then (['0'], t1.drop 1)
        else (t1.takeWhile isDigitChar, t1.dropWhile isDigitChar)
      let (fracDs, r2) := match r1 with
        | '.' :: r => (r.takeWhile isDigitChar, r.dropWhile isDigitChar)
        | _ => ([], r1)
      let fracPresent := match r1 with
        | '.' :: _ => true
        | _ => false
      if fracPresent ∧ fracDs = [] then Option.none
      else
        let (expPresent, expNeg, expDs, r3) := match r2 with
          | 'e' :: '+' :: r => (true, false, r.takeWhile isDigitChar, r.dropWhile isDigitChar)
          | 'e' :: '-' :: r => (true, true, r.takeWhile isDigitChar, r.dropWhile isDigitChar)
          | 'e' :: r => (true, false, r.takeWhile isDigitChar, r.dropWhile isDigitChar)
          | 'E' :: '+' :: r => (true, false, r.takeWhile isDigitChar, r.dropWhile isDigitChar)
          | 'E' :: '-' :: r => (true, true, r.takeWhile isDigitChar, r.dropWhile isDigitChar)
          | 'E' :: r => (true, false, r.takeWhile isDigitChar, r.dropWhile isDigitChar)
          | _ => (false, false, [], r2)
        if expPresent ∧ expDs = [] then Option.none
        else
          let sign : Int := if neg then -1 else 1
          if ¬ fracPresent ∧ ¬ expPresent then
            some (.int (sign * (digitsToNat intDs : Int)), r1)
          else
            let mant : Rat := ((sign * (digitsToNat (intDs ++ fracDs) : Int) : Int) : Rat)
            let e10 : Int := (if expNeg then -(digitsToNat expDs : Int)
                              else (digitsToNat expDs : Int)) - (fracDs.length : Int)
            let scaled : Rat :=
              if 0 ≤ e10 then mant * ((10 : Rat) ^ e10.toNat)
              else mant / ((10 : Rat) ^ (-e10).toNat)
            some (.float scaled, r3)
  | [] => Option.none

mutual

/-- Parse one JSON value at the head of the input (no leading
whitespace). -/
def parseValue : Nat → List Char → Option (PyVal × List Char)
  | 0, _ => Option.none
  | fuel + 1, t =>
    match t with
    | 'n' :: 'u' :: 'l' :: 'l' :: r => some (.none, r)
    | 't' :: 'r' :: 'u' :: 'e' :: r => some (.bool true, r)
    | 'f' :: 'a' :: 'l' :: 's' :: 'e' :: r => some (.bool false, r)
    | '"' :: r =>
      match parseStringRest r [] with
      | some (s, r2) => some (.str s, r2)
      | Option.none => Option.none
    | '[' :: r =>
      match r.dropWhile isJsonWs with
      | ']' :: r2 => some (.list [], r2)
      | _ => parseElems fuel r []
    | '\x7b' :: r =>
      match r.dropWhile isJsonWs with
      | '\x7d' :: r2 => some (.dict [], r2)
      | _ => parseMembers fuel r []
    | _ => parseNumber t

/-- Parse the elements of a non-empty JSON array, after `[` or `,`. -/
def parseElems : Nat → List Char → List PyVal → Option (PyVal × List Char)
  | 0, _, _ => Option.none
  | fuel + 1, t, acc =>
    match parseValue fuel (t.dropWhile isJsonWs) with
    | Option.none => Option.none
    | some (v, r) =>
      match r.dropWhile isJsonWs with
      | ',' :: r2 => parseElems fuel r2 (acc ++ [v])
      | ']' :: r2 => some (.list (acc ++ [v]), r2)
      | _ => Option.none

/-- Parse the members of a non-empty JSON object, after `{` or `,`;
duplicate keys follow Python dict semantics (replace in place). -/
def parseMembers : Nat → List Char → List (String × PyVal) →
    Option (PyVal × List Char)
  | 0, _, _ => Option.none
  | fuel + 1, t, acc =>
    match t.dropWhile isJsonWs with
    | '"' :: r =>
      match parseStringRest r [] with
      | Option.none => Option.none
      | some (k, r2) =>
        match r2.dropWhile isJsonWs with
        | ':' :: r3 =>
          match parseValue fuel (r3.dropWhile isJsonWs) with
          | Option.none => Option.none
          | some (v, r4) =>
            match r4.dropWhile isJsonWs with
            | ',' :: r5 => parseMembers fuel r5 (pyDictSet acc k v)
            | '\x7d' :: r5 => some (.dict (pyDictSet acc k v), r5)
            | _ => Option.none
        | _ => Option.none
    | _ => Option.none

end

/-- Model of `json.loads(text)`: one JSON value surrounded by optional whitespace,
nothing else. -/
def jsonParse (t : List Char) : Option PyVal :=
  match parseValue (2 * t.length + 8) (t.dropWhile isJsonWs) with
  | some (v, rest) => if rest.dropWhile isJsonWs = [] then some v else Option.none
  | Option.none => Option.none

/-! ## The two regex searches of `_extract_json` (rag.py lines 131–152) -/

/-- Lazy scan for the fenced-block regex: inside a code fence, after the
opening `{`, extend the span one character at a time and stop at the
first `}` that is followed by optional whitespace and three backticks
(the lazy `\x7b.*?\x7d` group followed by whitespace and the closing
fence). `acc` carries the span built so far, opening brace included. -/
def fenceScan : List Char → List Char → Option (List Char)
  | [], _ => Option.none
  | c :: rest, acc =>
    if c = '\x7d' then
      if List.isPrefixOf ['`', '`', '`'] (rest.dropWhile isPySpace)
      then some (acc ++ ['\x7d'])
      else fenceScan rest (acc ++ ['\x7d'])
    else fenceScan rest (acc ++ [c])

/-- After the opening triple backtick (and optional `json` tag): skip
whitespace, require `{`, then scan lazily for the span. -/
def fenceBody (t : List Char) : Option (List Char) :=
  match t.dropWhile isPySpace with
  | '\x7b' :: content => fenceScan content ['\x7b']
  | _ => Option.none

/-- Model of `re.search` for the fenced-block pattern: try every start position,
earliest first; at each opening fence try the `json`-tagged alternative
first, then the untagged one. Returns the captured `{...}` span. -/
def fenceFrom : List Char → Option (List Char)
  | [] => Option.none
  | c :: rest =>
    let here :=
      if List.isPrefixOf ['`', '`', '`'] (c :: rest) then
        let afterTicks := (c :: rest).drop 3
        match (if List.isPrefixOf ['j', 's', 'o', 'n'] afterTicks
               then fenceBody (afterTicks.drop 4)
               else Option.none) with
        | some g => some g
        | Option.none => fenceBody afterTicks
      else Option.none
    match here with
    | some g => some g
    | Option.none => fenceFrom rest

/-- The group matched by ``re.search(r"```(?:json)?\s*(\x7b.*?\x7d)\s*```",
text, re.DOTALL)``, if any. -/
def findFence (t : List Char) : Option (List Char) := fenceFrom t

/-- The group matched by `re.search(r"(\x7b.*\x7d)", text, re.DOTALL)`:
the leftmost `{` having some `}` after it, the greedy `.*` running to the
last `}` of the text. -/
def findBrace (t : List Char) : Option (List Char) :=
  match t.dropWhile (fun c => ¬ (c = '\x7b')) with
  | '\x7b' :: rest =>
    match rest.reverse.dropWhile (fun c => ¬ (c = '\x7d')) with
    | [] => Option.none
    | r => some ('\x7b' :: r.reverse)
  | _ => Option.none

/-! ## `_extract_json` (rag.py lines 131–152) -/

/-- The three strategies in order, stopping at the first success:
(1) the whole text as JSON; (2) the contents of a fenced code block;
(3) the first `{...}` span. `Option.none` models the final
`return None`. A regex match whose contents fail to parse falls through
to the next strategy. -/
def extractJson (t : List Char) : Option PyVal :=
  match jsonParse t with
  | some v => some v
  | Option.none =>
    match (match findFence t with
           | some g => jsonParse g
           | Option.none => Option.none) with
    | some v => some v
    | Option.none =>
      match findBrace t with
      | some g => jsonParse g
      | Option.none => Option.none

/-! ## Embeddings (`embed_texts`, rag.py lines 69–78)

The ollama embedding model is an external collaborator; it is abstracted
as an oracle mapping a text to `some embedding` when the response's
`embedding` field is a list, and to `Option.none` when the response is
malformed (the field missing or not a list). -/

/-- The `ollama.embeddings` collaborator: `resp.get("embedding")` together
with the `isinstance(emb, list)` test. -/
def EmbOracle : Type := List Char → Option (List Rat)

/-- Model of `embed_texts`: one embedding per text, in input order; the first
malformed response raises
`RuntimeError(f"Embedding failed for text chunk (len=...).")`. -/
def embedTexts (f : EmbOracle) : List (List Char) → Except String (List (List Rat))
  | [] => .ok []
  | t :: ts =>
    match f t with
    | Option.none =>
      .error ("Embedding failed for text chunk (len=" ++ natToDecimal t.length ++ ").")
    | some e =>
      match embedTexts f ts with
      | .error msg => .error msg
      | .ok rest => .ok (e :: rest)

/-- How many calls to the embedding model the `embed_texts` loop issues:
one per text until (and including) the first malformed response. -/
def numEmbedCalls (f : EmbOracle) : List (List Char) → Nat
  | [] => 0
  | t :: ts =>
    match f t with
    | Option.none => 1
    | some _ => 1 + numEmbedCalls f ts

def isOkE {α : Type} : Except String α → Bool
  | .ok _ => true
  | .error _ => false

/-! ## Vector store and ingestion (`ingest_text`, rag.py lines 232–241) -/

/-- One record held by the chroma collection. -/
structure StoredChunk : Type where
  id : String
  doc : List Char
  emb : List Rat
  meta : List (String × PyVal)

abbrev Store : Type := List StoredChunk

/-- Modelled from the spec: the chromadb collection is an external
collaborator and `collection.add` of an id already present must be
treated as overwrite, not duplication ("overwrite semantics, not
additive"); one record per id, an existing id's record is replaced in
place, a new id is appended. -/
def upsertOne (s : Store) (c : StoredChunk) : Store :=
  if s.any (fun e => e.id == c.id) then
    s.map (fun e => if e.id == c.id then c else e)
  else s ++ [c]

/-- The parallel id/document/embedding/metadata lists of a
`collection.add` call, as records (chromadb validates the lists have
equal length). -/
def mkRecords : List String → List (List Char) → List (List Rat) →
    List (List (String × PyVal)) → List StoredChunk
  | i :: is, d :: ds, e :: es, m :: ms =>
    ⟨i, d, e, m⟩ :: mkRecords is ds es ms
  | _, _, _, _ => []

/-- Model of `collection.add(ids=..., documents=..., embeddings=..., metadatas=...)`
under the spec's overwrite semantics. -/
def collectionAdd (s : Store) (ids : List String) (docs : List (List Char))
    (embs : List (List Rat)) (metas : List (List (String × PyVal))) : Store :=
  (mkRecords ids docs embs metas).foldl upsertOne s

/-- Model of `meta.get("doc_id", meta.get("title", "doc"))` on the coerced
metadata. -/
def docIdVal (es : List (String × PyVal)) : PyVal :=
  match pyLookup es "doc_id" with
  | some v => v
  | Option.none =>
    match pyLookup es "title" with
    | some v => v
    | Option.none => .str "doc"

/-- Number of chunks the store holds for a given document: records whose
coerced-metadata `doc_id`-or-`title`-or-`"doc"` renders to the given
text. -/
def countForDoc (s : Store) (docid : String) : Nat :=
  (s.filter (fun e => pyStrOf (docIdVal e.meta) == docid)).length

/-- The id list `[f"{meta.get('doc_id', meta.get('title', 'doc'))}-{i}"
for i in range(len(parts))]`. -/
def chunkIds (meta : List (String × PyVal)) (count : Nat) : List String :=
  (List.range count).map (fun i => pyStrOf (docIdVal meta) ++ "-" ++ natToDecimal i)

/-- Model of `ingest_text(text, metadata)` against an already-initialized
collection `s` and embedding oracle `f`: coerce the metadata, chunk the
text with the default size 900 and overlap 150, derive the ids, embed
every chunk, add everything to the collection and report
`{"added": len(parts)}`. Exceptions from coercion or embedding
propagate. -/
def ingestText (s : Store) (f : EmbOracle) (text : List Char)
    (metadata : List (String × PyVal)) : Except String (Store × PyVal) :=
  match coerceMeta metadata with
  | .error e => .error e
  | .ok meta =>
    match embedTexts f (pyChunk text 900 150) with
    | .error e => .error e
    | .ok embs =>
      .ok (collectionAdd s (chunkIds meta (pyChunk text 900 150).length)
             (pyChunk text 900 150) embs
             (List.replicate (pyChunk text 900 150).length meta),
           .dict [("added", .int (pyChunk text 900 150).length)])

/-! ## Resilient store initialization (`_init_chroma`, rag.py lines 37–63)

The chromadb `PersistentClient` + `get_or_create_collection` calls are
external; the outcome of the first attempt and of the retry after the
on-disk reset are abstracted as `Except` parameters. The handle is
abstracted as `Nat`. -/

structure InitOutcome : Type where
  /-- The value returned, or the exception propagated to the caller. -/
  result : Except String Nat
  /-- Whether `shutil.rmtree(CHROMA_PATH)` ran (the on-disk store was
  discarded). -/
  storeDeleted : Bool
  /-- How many client-initialization attempts were made. -/
  initAttempts : Nat

/-- Model of `_init_chroma(reset_if_broken)`: return the memoized handle if any;
otherwise attempt initialization, and on failure either propagate
(`reset_if_broken=False`) or delete the on-disk store and retry exactly
once, the retry's failure propagating with no further recovery. -/
def initChroma (firstTry retryAfterReset : Except String Nat) (memo : Option Nat)
    (resetIfBroken : Bool) : InitOutcome :=
  match memo with
  | some h => ⟨.ok h, false, 0⟩
  | Option.none =>
    match firstTry with
    | .ok h => ⟨.ok h, false, 1⟩
    | .error e =>
      if resetIfBroken then
        match retryAfterReset with
        | .ok h => ⟨.ok h, true, 2⟩
        | .error e2 => ⟨.error e2, true, 2⟩
      else ⟨.error e, false, 1⟩

/-! ## Generation orchestrator tail (`generate_application`,
rag.py lines 336–364)

Retrieval and the chat-completion call are external I/O; what is modelled
is everything the function does with the model's raw text `content`:
extract, validate, normalize synonyms, or fall back to
`{"raw": content}`. -/

/-- The three `setdefault` normalizations: fold the synonyms
`cover_letter` / `bullets` / `ats` into the canonical keys, defaulting
absent-or-falsy synonyms to `""` / `[]` / `{}`. -/
def normalizeDraft (d : List (String × PyVal)) : List (String × PyVal) :=
  let d1 := pySetdefault d "cover_letter_markdown" (pyOr (pyGetNone d "cover_letter") (.str ""))
  let d2 := pySetdefault d1 "cv_bullets" (pyOr (pyGetNone d1 "bullets") (.list []))
  pySetdefault d2 "ats_report" (pyOr (pyGetNone d2 "ats") (.dict []))

/-- Whether the parsed mapping holds at least one expected top-level key. -/
def hasExpectedKey (d : List (String × PyVal)) : Bool :=
  hasKey d "cover_letter_markdown" || hasKey d "cv_bullets" || hasKey d "ats_report"

/-- The dict `generate_application` returns for raw model output
`content`: the normalized draft when extraction produced a mapping with
at least one expected key, the `{"raw": content}` fallback otherwise. -/
def genFromContent (content : String) : PyVal :=
  match extractJson content.data with
  | some (PyVal.dict d) =>
    if hasExpectedKey d then .dict (normalizeDraft d)
    else .dict [("raw", .str content)]
  | _ => .dict [("raw", .str content)]

/-! ## Concrete values used by the claims -/

/-- Predicate: `s` holds the id of `c`, and every record under that id is exactly
`c`. -/
def containsExactly (s : Store) (c : StoredChunk) : Prop :=
  (∃ e ∈ s, e.id = c.id) ∧ ∀ e ∈ s, e.id = c.id → e = c

/-- The spec's chunker example input: `"a" * 2000`. -/
def c3Text : List Char := List.replicate 2000 'a'

/-- An embedding collaborator that always answers with a (zero-length)
numeric vector. -/
def wOracle : EmbOracle := fun _ => some []

/-- An embedding collaborator whose response's `embedding` field is never
a list. -/
def badOracle : EmbOracle := fun _ => Option.none

/-- The draft mapping of the spec's extractor example. -/
def draftVal : PyVal :=
  .dict [("cover_letter_markdown", .str "x"), ("cv_bullets", .list []),
         ("ats_report", .dict [])]

/-- Raw model output that is exactly a JSON object. -/
def exactDraftText : String :=
  "\x7b\"cover_letter_markdown\":\"x\",\"cv_bullets\":[],\"ats_report\":\x7b\x7d\x7d"

/-- The same object wrapped in triple backticks with a `json` tag. -/
def fencedDraftText : String := "```json\n" ++ exactDraftText ++ "\n```"

/-- Raw model output with no JSON anywhere. -/
def noJsonText : String := "Sorry, I cannot help with that."

/-- Raw model output whose only brace span holds malformed JSON. -/
def malformedSpanText : String := "see \x7bnot valid json\x7d here"

/-! ## Supporting lemmas: decimal rendering is injective -/

theorem digitsToNat_append_digit (ds : List Char) (c : Char) :
    digitsToNat (ds ++ [c]) = 10 * digitsToNat ds + (c.toNat - 48) := by
  simp [digitsToNat, List.foldl_append]

theorem digitChar_round : ∀ m, m < 10 → (digitChar m).toNat - 48 = m := by decide

theorem digitsToNat_decDigits : ∀ fuel n, n < fuel → digitsToNat (decDigits fuel n) = n := by
  intro fuel
  induction fuel with
  | zero => intro n hn; omega
  | succ f ih =>
    intro n hn
    unfold decDigits
    by_cases h10 : n < 10
    · simp only [h10, if_true]
      simpa [digitsToNat] using digitChar_round n h10
    · have hdiv : n / 10 < f := by
        have h1 : n / 10 < n := Nat.div_lt_self (by omega) (by omega)
        omega
      simp only [h10, if_false]
      rw [digitsToNat_append_digit, ih _ hdiv, digitChar_round _ (Nat.mod_lt n (by omega))]
      omega

theorem natToDecimal_injective : Function.Injective natToDecimal := by
  intro a b h
  have hd : decDigits (a + 1) a = decDigits (b + 1) b := by
    have := congrArg String.data h
    simpa [natToDecimal] using this
  have := congrArg digitsToNat hd
  rwa [digitsToNat_decDigits _ a (by omega), digitsToNat_decDigits _ b (by omega)] at this

theorem string_append_data (a b : String) : (a ++ b).data = a.data ++ b.data := rfl

theorem chunkIds_nodup (meta : List (String × PyVal)) (n : Nat) :
    (chunkIds meta n).Nodup := by
  unfold chunkIds
  refine List.Nodup.map ?_ (List.nodup_range n)
  intro i j h
  have hd : (pyStrOf (docIdVal meta) ++ "-").data ++ (natToDecimal i).data
      = (pyStrOf (docIdVal meta) ++ "-").data ++ (natToDecimal j).data := by
    have := congrArg String.data h
    simpa [string_append_data, List.append_assoc] using this
  have hdec : natToDecimal i = natToDecimal j :=
    String.ext (List.append_cancel_left hd)
  exact natToDecimal_injective hdec

/-! ## Supporting lemmas: the chunker loop -/

theorem chunkAux_nil (text : List Char) (size s1 fuel i : Nat)
    (h : text.length ≤ i) : chunkFromAux text size s1 fuel i = [] := by
  cases fuel with
  | zero => rfl
  | succ f => unfold chunkFromAux; rw [if_neg (by omega)]

theorem chunkAux_cons (text : List Char) (size s1 fuel i : Nat)
    (hi : i < text.length)
    (hw : ((text.drop i).take size).all isPySpace = false) :
    chunkFromAux text size s1 (fuel + 1) i
      = (text.drop i).take size :: chunkFromAux text size s1 fuel (i + s1 + 1) := by
  conv_lhs => unfold chunkFromAux
  rw [if_pos hi]
  simp only [hw]
  rw [if_neg Bool.false_ne_true]

theorem chunkAux_stop (text : List Char) (size s1 fuel i : Nat)
    (hi : i < text.length)
    (hw : ((text.drop i).take size).all isPySpace = true) :
    chunkFromAux text size s1 (fuel + 1) i = [] := by
  conv_lhs => unfold chunkFromAux
  rw [if_pos hi]
  simp only [hw]
  rw [if_pos trivial]

theorem chunkAux_fuel_irrel (text : List Char) (size s1 : Nat) :
    ∀ f1 f2 i, text.length - i ≤ f1 → text.length - i ≤ f2 →
      chunkFromAux text size s1 f1 i = chunkFromAux text size s1 f2 i := by
  intro f1
  induction f1 with
  | zero =>
    intro f2 i h1 _
    rw [chunkAux_nil text size s1 0 i (by omega), chunkAux_nil text size s1 f2 i (by omega)]
  | succ g1 ih =>
    intro f2 i h1 h2
    by_cases hi : i < text.length
    · cases f2 with
      | zero => omega
      | succ g2 =>
        by_cases hw : ((text.drop i).take size).all isPySpace
        · rw [chunkAux_stop text size s1 g1 i hi hw, chunkAux_stop text size s1 g2 i hi hw]
        · rw [chunkAux_cons text size s1 g1 i hi (by simpa using hw),
              chunkAux_cons text size s1 g2 i hi (by simpa using hw)]
          rw [ih g2 (i + s1 + 1) (by omega) (by omega)]
    · rw [chunkAux_nil text size s1 _ i (by omega), chunkAux_nil text size s1 _ i (by omega)]

theorem chunkAux_length_le (text : List Char) (size s1 : Nat) :
    ∀ fuel i, (chunkFromAux text size s1 fuel i).length ≤ fuel := by
  intro fuel
  induction fuel with
  | zero => intro i; simp [chunkFromAux]
  | succ f ih =>
    intro i
    by_cases hi : i < text.length
    · by_cases hw : ((text.drop i).take size).all isPySpace
      · rw [chunkAux_stop text size s1 f i hi hw]; simp
      · rw [chunkAux_cons text size s1 f i hi (by simpa using hw)]
        simpa using ih (i + s1 + 1)
    · rw [chunkAux_nil text size s1 _ i (by omega)]; simp

theorem chunkAux_mem_not_space (text : List Char) (size s1 : Nat) :
    ∀ fuel i c, c ∈ chunkFromAux text size s1 fuel i → c.all isPySpace = false := by
  intro fuel
  induction fuel with
  | zero => intro i c hc; simp [chunkFromAux] at hc
  | succ f ih =>
    intro i c hc
    by_cases hi : i < text.length
    · by_cases hw : ((text.drop i).take size).all isPySpace
      · rw [chunkAux_stop text size s1 f i hi hw] at hc; simp at hc
      · rw [chunkAux_cons text size s1 f i hi (by simpa using hw)] at hc
        rcases List.mem_cons.mp hc with h | h
        · subst h; simpa using hw
        · exact ih _ c h
    · rw [chunkAux_nil text size s1 _ i (by omega)] at hc; simp at hc

theorem chunkAux_getD (text : List Char) (size s1 : Nat) :
    ∀ fuel i j, j < (chunkFromAux text size s1 fuel i).length →
      (chunkFromAux text size s1 fuel i).getD j []
        = (text.drop (i + j * (s1 + 1))).take size := by
  intro fuel
  induction fuel with
  | zero => intro i j h; simp [chunkFromAux] at h
  | succ f ih =>
    intro i j h
    by_cases hi : i < text.length
    · by_cases hw : ((text.drop i).take size).all isPySpace
      · rw [chunkAux_stop text size s1 f i hi hw] at h; simp at h
      · have hc := chunkAux_cons text size s1 f i hi (by simpa using hw)
        rw [hc] at h ⊢
        cases j with
        | zero => simp
        | succ j =>
          have h2 : j < (chunkFromAux text size s1 f (i + s1 + 1)).length := by
            simpa using h
          have := ih (i + s1 + 1) j h2
          simp only [List.getD_cons_succ]
          rw [this]
          ring_nf
    · rw [chunkAux_nil text size s1 _ i (by omega)] at h; simp at h

theorem chunkAux_joinSpans (text : List Char) (size s1 : Nat)
    (hsize : s1 + 1 ≤ size) :
    ∀ fuel i, text.length - i ≤ fuel → i % (s1 + 1) = 0 →
      (∀ m, m < text.length → m % (s1 + 1) = 0 →
        ((text.drop m).take size).all isPySpace = false) →
      joinSpans (s1 + 1) (chunkFromAux text size s1 fuel i) = text.drop i := by
  intro fuel
  induction fuel with
  | zero =>
    intro i h1 _ _
    rw [chunkAux_nil text size s1 0 i (by omega), List.drop_eq_nil_of_le (by omega)]
    rfl
  | succ f ih =>
    intro i h1 hmod hws
    by_cases hi : i < text.length
    · have hw := hws i hi hmod
      rw [chunkAux_cons text size s1 f i hi hw]
      by_cases hnext : i + s1 + 1 < text.length
      · have hmod2 : (i + s1 + 1) % (s1 + 1) = 0 := by
          have he : i + s1 + 1 = i + (s1 + 1) := by ring
          rw [he, Nat.add_mod_right]
          exact hmod
        have hrest := ih (i + s1 + 1) (by omega) hmod2 hws
        have hw2 := hws (i + s1 + 1) hnext hmod2
        cases f with
        | zero => omega
        | succ f2 =>
          rw [chunkAux_cons text size s1 f2 (i + s1 + 1) hnext hw2]
          rw [chunkAux_cons text size s1 f2 (i + s1 + 1) hnext hw2] at hrest
          show ((text.drop i).take size).take (s1 + 1)
              ++ joinSpans (s1 + 1) _ = text.drop i
          rw [hrest]
          rw [List.take_take, min_eq_left hsize]
          have hdd : text.drop (i + s1 + 1) = (text.drop i).drop (s1 + 1) := by
            rw [List.drop_drop]; ring_nf
          rw [hdd, List.take_append_drop]
      · rw [chunkAux_nil text size s1 f (i + s1 + 1) (by omega)]
        show (text.drop i).take size = text.drop i
        exact List.take_of_length_le (by rw [List.length_drop]; omega)
    · rw [chunkAux_nil text size s1 _ i (by omega), List.drop_eq_nil_of_le (by omega)]
      rfl

theorem chunkStep_pos (size overlap : Nat) : 1 ≤ chunkStep size overlap :=
  le_max_left 1 (size - overlap)

theorem chunkStep_of_lt (size overlap : Nat) (h : overlap < size) :
    chunkStep size overlap = size - overlap :=
  max_eq_right (by omega)

theorem chunkStep_sub_one_add_one (size overlap : Nat) :
    chunkStep size overlap - 1 + 1 = chunkStep size overlap := by
  have := chunkStep_pos size overlap; omega

/-! ## Supporting lemmas: overwrite semantics of the store -/

theorem upsertOne_containsExactly_self (s : Store) (c : StoredChunk) :
    containsExactly (upsertOne s c) c := by
  unfold upsertOne
  by_cases h : s.any (fun e => e.id == c.id)
  · rw [if_pos h]
    rcases List.any_eq_true.mp h with ⟨e, he, heq⟩
    refine ⟨⟨c, List.mem_map.mpr ⟨e, he, by rw [if_pos heq]⟩, rfl⟩, ?_⟩
    intro e2 he2 hid2
    rcases List.mem_map.mp he2 with ⟨e3, he3, heq3⟩
    by_cases h3 : e3.id == c.id
    · rw [if_pos h3] at heq3; exact heq3.symm
    · rw [if_neg h3] at heq3
      subst heq3
      exact absurd (by simpa using hid2) h3
  · rw [if_neg h]
    refine ⟨⟨c, List.mem_append.mpr (Or.inr (List.mem_singleton.mpr rfl)), rfl⟩, ?_⟩
    intro e he hid
    rcases List.mem_append.mp he with h1 | h1
    · exact absurd (List.any_eq_true.mpr ⟨e, h1, by simpa using hid⟩) h
    · simpa using h1

theorem upsertOne_preserves_containsExactly (s : Store) (c d : StoredChunk)
    (hne : d.id ≠ c.id) (h : containsExactly s c) :
    containsExactly (upsertOne s d) c := by
  obtain ⟨⟨e, he, hid⟩, hall⟩ := h
  unfold upsertOne
  by_cases hany : s.any (fun x => x.id == d.id)
  · rw [if_pos hany]
    constructor
    · refine ⟨e, List.mem_map.mpr ⟨e, he, ?_⟩, hid⟩
      rw [if_neg (by simp [hid]; exact Ne.symm hne)]
    · intro e2 he2 hid2
      rcases List.mem_map.mp he2 with ⟨e3, he3, heq⟩
      by_cases h3 : e3.id == d.id
      · rw [if_pos h3] at heq
        subst heq
        exact absurd hid2 hne
      · rw [if_neg h3] at heq
        subst heq
        exact hall e3 he3 hid2
  · rw [if_neg hany]
    constructor
    · exact ⟨e, List.mem_append.mpr (Or.inl he), hid⟩
    · intro e2 he2 hid2
      rcases List.mem_append.mp he2 with h1 | h1
      · exact hall e2 h1 hid2
      · have : e2 = d := by simpa using h1
        subst this
        exact absurd hid2 hne

theorem foldl_preserves_containsExactly (c : StoredChunk) :
    ∀ (l : List StoredChunk) (s : Store), c.id ∉ l.map StoredChunk.id →
      containsExactly s c → containsExactly (l.foldl upsertOne s) c := by
  intro l
  induction l with
  | nil => intro s _ h; exact h
  | cons d rest ih =>
    intro s hni h
    rw [List.map_cons] at hni
    have hne : d.id ≠ c.id := fun heq => hni (by rw [← heq]; exact List.mem_cons_self _ _)
    have hni2 : c.id ∉ rest.map StoredChunk.id := fun hm => hni (List.mem_cons_of_mem _ hm)
    exact ih (upsertOne s d) hni2 (upsertOne_preserves_containsExactly s c d hne h)

theorem upsertOne_of_containsExactly (s : Store) (c : StoredChunk)
    (h : containsExactly s c) : upsertOne s c = s := by
  obtain ⟨⟨e, he, hid⟩, hall⟩ := h
  unfold upsertOne
  rw [if_pos (List.any_eq_true.mpr ⟨e, he, by simpa using hid⟩)]
  have hmap : ∀ x ∈ s, (if x.id == c.id then c else x) = x := by
    intro x hx
    by_cases hxid : x.id == c.id
    · rw [if_pos hxid]
      exact (hall x hx (by simpa using hxid)).symm
    · rw [if_neg hxid]
  calc s.map (fun x => if x.id == c.id then c else x)
      = s.map (fun x => x) := List.map_congr_left hmap
    _ = s := List.map_id' s

theorem upsertAll_idem :
    ∀ (l : List StoredChunk), (l.map StoredChunk.id).Nodup →
      ∀ s : Store, (l.foldl upsertOne (l.foldl upsertOne s)) = l.foldl upsertOne s := by
  intro l
  induction l with
  | nil => intro _ s; rfl
  | cons c rest ih =>
    intro hnd s
    rw [List.map_cons] at hnd
    have hni : c.id ∉ rest.map StoredChunk.id := (List.nodup_cons.mp hnd).1
    have hnd2 : (rest.map StoredChunk.id).Nodup := (List.nodup_cons.mp hnd).2
    have hS1 : containsExactly (rest.foldl upsertOne (upsertOne s c)) c :=
      foldl_preserves_containsExactly c rest (upsertOne s c) hni
        (upsertOne_containsExactly_self s c)
    calc ((c :: rest).foldl upsertOne ((c :: rest).foldl upsertOne s))
        = rest.foldl upsertOne
            (upsertOne (rest.foldl upsertOne (upsertOne s c)) c) := by simp
      _ = rest.foldl upsertOne (rest.foldl upsertOne (upsertOne s c)) := by
          rw [upsertOne_of_containsExactly _ c hS1]
      _ = rest.foldl upsertOne (upsertOne s c) := ih hnd2 (upsertOne s c)
      _ = (c :: rest).foldl upsertOne s := by simp

theorem mkRecords_ids_sublist :
    ∀ (ids : List String) (ds : List (List Char)) (es : List (List Rat))
      (ms : List (List (String × PyVal))),
      ((mkRecords ids ds es ms).map StoredChunk.id).Sublist ids := by
  intro ids
  induction ids with
  | nil =>
    intro ds es ms
    cases ds <;> cases es <;> cases ms <;> simp [mkRecords]
  | cons i is ih =>
    intro ds es ms
    cases ds with
    | nil => simp [mkRecords]
    | cons d ds =>
      cases es with
      | nil => simp [mkRecords]
      | cons e es =>
        cases ms with
        | nil => simp [mkRecords]
        | cons m ms =>
          simpa [mkRecords] using List.Sublist.cons₂ i (ih ds es ms)

/-! ## Claim C2 -/

/-- Claim C2 (evidence of the code bug): the metadata coercer is not a
total function. On the mapping `{"x": [date(2024, 1, 1)]}` — a shape YAML
front-matter produces for a list of dates — the list branch calls
`json.dumps`, which raises `TypeError: Object of type date is not JSON
serializable`, so `_coerce_meta` raises instead of returning a mapping. -/
theorem specC2 :
    coerceMeta [("x", PyVal.list [PyVal.date 2024 1 1])]
      = Except.error "Object of type date is not JSON serializable" := rfl

/-! ## Claim C3 -/

theorem c3_window_not_space (i : Nat) (hi : i < 2000) :
    ((c3Text.drop i).take 900).all isPySpace = false := by
  unfold c3Text
  rw [List.drop_replicate, List.take_replicate, List.all_replicate,
      if_neg (by rw [Nat.min_def]; split <;> omega)]
  decide

theorem c3_chunks : pyChunk c3Text 900 150
    = [(c3Text.drop 0).take 900, (c3Text.drop 750).take 900,
       (c3Text.drop 1500).take 900] := by
  have hlen : c3Text.length = 2000 := by
    unfold c3Text; rw [List.length_replicate]
  have hstep : chunkStep 900 150 - 1 = 749 := by decide
  unfold pyChunk
  rw [hstep, hlen]
  rw [show (2000 : Nat) = 1999 + 1 from rfl,
      chunkAux_cons c3Text 900 749 1999 0 (by rw [hlen]; omega)
        (c3_window_not_space 0 (by omega))]
  rw [show (0 : Nat) + 749 + 1 = 750 from rfl,
      show (1999 : Nat) = 1998 + 1 from rfl,
      chunkAux_cons c3Text 900 749 1998 750 (by rw [hlen]; omega)
        (c3_window_not_space 750 (by omega))]
  rw [show (750 : Nat) + 749 + 1 = 1500 from rfl,
      show (1998 : Nat) = 1997 + 1 from rfl,
      chunkAux_cons c3Text 900 749 1997 1500 (by rw [hlen]; omega)
        (c3_window_not_space 1500 (by omega))]
  rw [show (1500 : Nat) + 749 + 1 = 2250 from rfl,
      chunkAux_nil c3Text 900 749 1997 2250 (by rw [hlen]; omega)]

theorem c3_lengths : (pyChunk c3Text 900 150).map List.length = [900, 900, 500] := by
  rw [c3_chunks]
  unfold c3Text
  simp only [List.map_cons, List.map_nil, List.length_take, List.length_drop,
    List.length_replicate]
  norm_num

/-- Claim C3 (counterexample): on `"a" * 2000` with size 900 and overlap
150, the chunker's windows start at offsets 0, 750 and 1500, so the last
window is `text[1500:2400]` and has length 500, not the 200 the claim
states. -/
theorem specC3_counterexample :
    ¬ ((pyChunk c3Text 900 150).map List.length = [900, 900, 200]) := by
  rw [c3_lengths]
  decide

/-- Claim C3 (amended): for the input text `"a"` repeated 2000 times with
size 900 and overlap 150, the chunker returns exactly 3 chunks, of
lengths 900, 900 and 500, equal to the slices of the input starting at
offsets 0, 750 and 1500. -/
theorem specC3 :
    pyChunk c3Text 900 150
      = [(c3Text.drop 0).take 900, (c3Text.drop 750).take 900,
         (c3Text.drop 1500).take 900]
    ∧ (pyChunk c3Text 900 150).map List.length = [900, 900, 500] :=
  ⟨c3_chunks, c3_lengths⟩

/-! ## Claim C5 -/

/-- Claim C5: on initialization failure `_init_chroma` performs exactly
one automatic recovery attempt — delete the on-disk store and retry once;
the retry's outcome (success or failure) is returned unchanged, with no
further recovery. When `reset_if_broken` is false, the first failure
propagates immediately and the on-disk store is not deleted. On first
success no reset happens at all. -/
theorem specC5 (ft rt : Except String Nat) (e : String) (hf : ft = .error e) :
    ((initChroma ft rt Option.none true).initAttempts = 2
      ∧ (initChroma ft rt Option.none true).storeDeleted = true
      ∧ (initChroma ft rt Option.none true).result = rt)
    ∧ ((initChroma ft rt Option.none false).result = .error e
      ∧ (initChroma ft rt Option.none false).storeDeleted = false
      ∧ (initChroma ft rt Option.none false).initAttempts = 1)
    ∧ (∀ h, ft = .ok h → initChroma ft rt Option.none true = ⟨.ok h, false, 1⟩) := by
  subst hf
  refine ⟨?_, ?_, ?_⟩
  · cases rt <;> simp [initChroma]
  · simp [initChroma]
  · intro h hh
    cases hh

/-- Claim C5 witness: a store whose first initialization fails with
`"boom"` and whose retry fails with `"worse"` is reset exactly once and
propagates `"worse"`; with recovery disabled it propagates `"boom"`
untouched. -/
theorem specC5_witness :
    ((initChroma (Except.error "boom") (Except.error "worse") Option.none true).initAttempts = 2
      ∧ (initChroma (Except.error "boom") (Except.error "worse") Option.none true).storeDeleted = true
      ∧ (initChroma (Except.error "boom") (Except.error "worse") Option.none true).result
          = Except.error "worse")
    ∧ ((initChroma (Except.error "boom") (Except.error "worse") Option.none false).result
          = Except.error "boom"
      ∧ (initChroma (Except.error "boom") (Except.error "worse") Option.none false).storeDeleted
          = false
      ∧ (initChroma (Except.error "boom") (Except.error "worse") Option.none false).initAttempts
          = 1)
    ∧ (∀ h, Except.error "boom" = Except.ok h →
        initChroma (Except.error "boom") (Except.error "worse") Option.none true
          = ⟨Except.ok h, false, 1⟩) :=
  specC5 (Except.error "boom") (Except.error "worse") "boom" rfl

/-! ## Claim C8 -/

/-- Claim C8: when the embedding model answers every text with a numeric
vector, `embed_texts` returns exactly one embedding per input text, in
input order; when the response for any text is malformed (its `embedding`
field is not a list), `embed_texts` raises instead of substituting a zero
vector or skipping the item. -/
theorem specC8 (f : EmbOracle) (texts : List (List Char)) :
    ((∀ t ∈ texts, (f t).isSome = true) →
      embedTexts f texts = .ok (texts.map (fun t => (f t).getD []))
      ∧ (texts.map (fun t => (f t).getD [])).length = texts.length)
    ∧ (∀ t ∈ texts, f t = Option.none → isOkE (embedTexts f texts) = false) := by
  constructor
  · intro hall
    refine ⟨?_, by rw [List.length_map]⟩
    induction texts with
    | nil => rfl
    | cons t ts ih =>
      have ht := hall t (List.mem_cons_self t ts)
      cases hft : f t with
      | none => rw [hft] at ht; cases ht
      | some e =>
        have := ih (fun x hx => hall x (List.mem_cons_of_mem t hx))
        simp only [embedTexts, hft, this, List.map_cons]
        rfl
  · intro t ht hft
    induction texts with
    | nil => cases ht
    | cons u us ih =>
      rcases List.mem_cons.mp ht with h | h
      · subst h
        simp only [embedTexts, hft]
        rfl
      · cases hfu : f u with
        | none => simp only [embedTexts, hfu]; rfl
        | some e =>
          have := ih h
          simp only [embedTexts, hfu]
          cases hrec : embedTexts f us with
          | error msg => rfl
          | ok l => rw [hrec] at this; cases this

/-- Claim C8 witness: an always-well-formed model yields one embedding
for the single text `"a"`; an always-malformed model makes `embed_texts`
fail on the same input. -/
theorem specC8_witness :
    embedTexts wOracle [['a']] = Except.ok [([] : List Rat)]
    ∧ isOkE (embedTexts badOracle [['a']]) = false :=
  ⟨((specC8 wOracle [['a']]).1 (fun _ _ => rfl)).1,
   (specC8 badOracle [['a']]).2 ['a'] (List.mem_singleton.mpr rfl) rfl⟩

/-! ## Claim C9 -/

/-- Claim C9: for every text, size and overlap — the degenerate case
`overlap ≥ size` included — the chunker's stride is clamped to at least
one character, and the loop terminates: any iteration budget of at least
`text.length` computes the same (fixed) result, and the number of emitted
chunks never exceeds the text length. -/
theorem specC9 (text : List Char) (size overlap fuel : Nat)
    (hf : text.length ≤ fuel) :
    1 ≤ chunkStep size overlap
    ∧ chunkFromAux text size (chunkStep size overlap - 1) fuel 0
        = pyChunk text size overlap
    ∧ (pyChunk text size overlap).length ≤ text.length := by
  refine ⟨chunkStep_pos size overlap, ?_, ?_⟩
  · exact chunkAux_fuel_irrel text size (chunkStep size overlap - 1) fuel text.length 0
      (by omega) (by omega)
  · exact chunkAux_length_le text size (chunkStep size overlap - 1) text.length 0

/-- Claim C9 witness, exercising the degenerate case `overlap ≥ size`:
with size 2 and overlap 5 the stride clamps to 1 and a budget of 7
iterations already computes the chunking of a one-character text. -/
theorem specC9_witness :
    1 ≤ chunkStep 2 5
    ∧ chunkFromAux ['a'] 2 (chunkStep 2 5 - 1) 7 0 = pyChunk ['a'] 2 5
    ∧ (pyChunk ['a'] 2 5).length ≤ 1 :=
  specC9 ['a'] 2 5 7 (by decide)

/-! ## Claim C4 -/

/-- Claim C4 (counterexample): the claim as stated fails. First, on the
text `"a  b"` with size 2 and overlap 1 the chunker meets the
all-whitespace window at offset 1, stops, and drops the tail, so
concatenating the unique spans of the chunks does not reconstruct the
input. Second, on `"abcde"` with size 4 and overlap 3 the output is
`["abcd", "bcde", "cde", "de", "e"]`: the consecutive chunks `"cde"`
(offset 2) and `"de"` (offset 3) are not the last pair and share only 2
positions, not 3. -/
theorem specC4_counterexample :
    ¬ (joinSpans (chunkStep 2 1) (pyChunk [' ', 'a', ' ', ' ', 'b'].tail 2 1)
        = [' ', 'a', ' ', ' ', 'b'].tail)
    ∧ pyChunk "abcde".data 4 3
        = [['a', 'b', 'c', 'd'], ['b', 'c', 'd', 'e'], ['c', 'd', 'e'],
           ['d', 'e'], ['e']] := by
  constructor
  · decide
  · decide

/-- Claim C4 (amended): for every text and every size `S`, overlap `O`
with `O < S`: no emitted chunk is empty or all-whitespace; two
consecutive chunks of which the earlier has full length `S` overlap in
exactly `O` characters — the last `O` characters of the earlier chunk are
the first `O` characters of the later one — while a truncated non-final
chunk may overlap its successor by less; and when no window the chunker
visits is empty or all-whitespace, concatenating the unique spans of the
chunks reconstructs the whole input text (an all-whitespace window stops
the loop and drops the remainder). -/
theorem specC4 (text : List Char) (S O : Nat) (hO : O < S) :
    (∀ c ∈ pyChunk text S O, c.all isPySpace = false)
    ∧ (∀ j, j + 1 < (pyChunk text S O).length →
        ((pyChunk text S O).getD j []).length = S →
        ((pyChunk text S O).getD j []).drop (S - O)
            = ((pyChunk text S O).getD (j + 1) []).take O
        ∧ (((pyChunk text S O).getD (j + 1) []).take O).length = O)
    ∧ ((∀ m, m < text.length → m % (S - O) = 0 →
          ((text.drop m).take S).all isPySpace = false) →
        joinSpans (S - O) (pyChunk text S O) = text) := by
  have hso : chunkStep S O - 1 + 1 = S - O := by
    rw [chunkStep_sub_one_add_one, chunkStep_of_lt S O hO]
  refine ⟨?_, ?_, ?_⟩
  · intro c hc
    exact chunkAux_mem_not_space text S (chunkStep S O - 1) text.length 0 c hc
  · intro j hj1 hlen
    have hj0 : j < (pyChunk text S O).length := by omega
    have hg1 : (pyChunk text S O).getD j []
        = List.take S (List.drop (j * (S - O)) text) := by
      have h := chunkAux_getD text S (chunkStep S O - 1) text.length 0 j hj0
      rw [hso, Nat.zero_add] at h
      exact h
    have hg2 : (pyChunk text S O).getD (j + 1) []
        = List.take S (List.drop ((j + 1) * (S - O)) text) := by
      have h := chunkAux_getD text S (chunkStep S O - 1) text.length 0 (j + 1) hj1
      rw [hso, Nat.zero_add] at h
      exact h
    rw [hg1] at hlen
    rw [hg1, hg2]
    have e2 : (j + 1) * (S - O) = j * (S - O) + (S - O) := by ring
    constructor
    · rw [List.drop_take, List.drop_drop, List.take_take,
          min_eq_left (le_of_lt hO)]
      have e1 : S - (S - O) = O := by omega
      rw [e1, e2]
    · simp only [List.length_take, List.length_drop] at hlen ⊢
      rw [e2]
      omega
  · intro hws
    have h := chunkAux_joinSpans text S (chunkStep S O - 1) (by omega) text.length 0
      (by omega) (Nat.zero_mod _)
      (fun m hm hmod => hws m hm (by rwa [hso] at hmod))
    rw [hso, List.drop_zero] at h
    exact h

/-- Claim C4 witness: on `"abc"` with size 2 and overlap 1 no visited
window is whitespace, and the unique spans concatenate back to the
text. -/
theorem specC4_witness :
    joinSpans (2 - 1) (pyChunk ['a', 'b', 'c'] 2 1) = ['a', 'b', 'c'] :=
  (specC4 ['a', 'b', 'c'] 2 1 (by decide)).2.2 (by decide)

/-! ## Claims C6 and C7 -/

theorem hasKey_setdefault_self (d : List (String × PyVal)) (k : String) (v : PyVal) :
    hasKey (pySetdefault d k v) k = true := by
  unfold pySetdefault
  by_cases h : hasKey d k
  · rw [if_pos h]; exact h
  · rw [if_neg h]
    simp [hasKey, List.any_append]

theorem hasKey_setdefault_of (d : List (String × PyVal)) (k k2 : String) (v : PyVal)
    (h : hasKey d k = true) : hasKey (pySetdefault d k2 v) k = true := by
  unfold pySetdefault
  by_cases h2 : hasKey d k2
  · rw [if_pos h2]; exact h
  · rw [if_neg h2]
    simp only [hasKey, List.any_append, Bool.or_eq_true]
    exact Or.inl h

theorem normalizeDraft_has_keys (d : List (String × PyVal)) :
    hasKey (normalizeDraft d) "cover_letter_markdown" = true
    ∧ hasKey (normalizeDraft d) "cv_bullets" = true
    ∧ hasKey (normalizeDraft d) "ats_report" = true := by
  unfold normalizeDraft
  exact ⟨hasKey_setdefault_of _ _ _ _
          (hasKey_setdefault_of _ _ _ _ (hasKey_setdefault_self _ _ _)),
        hasKey_setdefault_of _ _ _ _ (hasKey_setdefault_self _ _ _),
        hasKey_setdefault_self _ _ _⟩

/-- Claim C6: `generate_application` never surfaces an interpretation
failure of the model's output as an exception. When extraction yields a
mapping holding at least one of the keys `cover_letter_markdown`,
`cv_bullets`, `ats_report`, it returns that mapping normalized — all
three canonical keys present, missing ones defaulted via the synonyms
`cover_letter`, `bullets`, `ats`. When extraction yields nothing, or a
mapping with none of the expected keys, it returns `{"raw": content}`;
in every case the result is one of those two shapes. -/
theorem specC6 (content : String) :
    (∀ d, extractJson content.data = some (PyVal.dict d) → hasExpectedKey d = true →
      genFromContent content = PyVal.dict (normalizeDraft d)
      ∧ hasKey (normalizeDraft d) "cover_letter_markdown" = true
      ∧ hasKey (normalizeDraft d) "cv_bullets" = true
      ∧ hasKey (normalizeDraft d) "ats_report" = true)
    ∧ (extractJson content.data = Option.none →
        genFromContent content = PyVal.dict [("raw", PyVal.str content)])
    ∧ (∀ d, extractJson content.data = some (PyVal.dict d) → hasExpectedKey d = false →
        genFromContent content = PyVal.dict [("raw", PyVal.str content)])
    ∧ ((∃ d, genFromContent content = PyVal.dict (normalizeDraft d))
        ∨ genFromContent content = PyVal.dict [("raw", PyVal.str content)]) := by
  refine ⟨?_, ?_, ?_, ?_⟩
  · intro d hd hkey
    exact ⟨by simp [genFromContent, hd, hkey], (normalizeDraft_has_keys d).1,
      (normalizeDraft_has_keys d).2.1, (normalizeDraft_has_keys d).2.2⟩
  · intro h
    simp [genFromContent, h]
  · intro d hd hkey
    simp [genFromContent, hd, hkey]
  · cases hext : extractJson content.data with
    | none => exact Or.inr (by simp [genFromContent, hext])
    | some v =>
      cases v with
      | dict d =>
        by_cases hkey : hasExpectedKey d
        · exact Or.inl ⟨d, by simp [genFromContent, hext, hkey]⟩
        · exact Or.inr (by simp [genFromContent, hext, hkey])
      | str s => exact Or.inr (by simp [genFromContent, hext])
      | int n => exact Or.inr (by simp [genFromContent, hext])
      | float q => exact Or.inr (by simp [genFromContent, hext])
      | bool b => exact Or.inr (by simp [genFromContent, hext])
      | none => exact Or.inr (by simp [genFromContent, hext])
      | list xs => exact Or.inr (by simp [genFromContent, hext])
      | date y m dd => exact Or.inr (by simp [genFromContent, hext])
      | datetime y mo dd h mi s => exact Or.inr (by simp [genFromContent, hext])
      | obj r => exact Or.inr (by simp [genFromContent, hext])

/-- Claim C6 witness: on the raw text `"Sorry, I cannot help with
that."` extraction yields nothing and the orchestrator returns the raw
fallback. -/
theorem specC6_witness :
    genFromContent noJsonText = PyVal.dict [("raw", PyVal.str noJsonText)] :=
  (specC6 noJsonText).2.1 rfl

/-- Claim C7: the response extractor tries exactly three strategies in
order, stopping at the first success — the whole text as JSON, then a
fenced code block's `{...}` span, then the first `{...}` span of the text
— and returns nothing when all three fail; JSON that is malformed inside
a matched span is a failure for that strategy, not repaired. -/
theorem specC7 (t : List Char) :
    (∀ v, jsonParse t = some v → extractJson t = some v)
    ∧ (jsonParse t = Option.none →
        ∀ g v, findFence t = some g → jsonParse g = some v → extractJson t = some v)
    ∧ (jsonParse t = Option.none →
        (match findFence t with
         | some g => jsonParse g = Option.none
         | Option.none => True) →
        ∀ g v, findBrace t = some g → jsonParse g = some v → extractJson t = some v)
    ∧ (jsonParse t = Option.none →
        (match findFence t with
         | some g => jsonParse g = Option.none
         | Option.none => True) →
        (match findBrace t with
         | some g => jsonParse g = Option.none
         | Option.none => True) →
        extractJson t = Option.none) := by
  refine ⟨?_, ?_, ?_, ?_⟩
  · intro v h
    simp [extractJson, h]
  · intro h0 g v hf hg
    simp [extractJson, h0, hf, hg]
  · intro h0 hfence g v hb hg
    cases hff : findFence t with
    | none => simp [extractJson, h0, hff, hb, hg]
    | some g2 =>
      rw [hff] at hfence
      have h2 : jsonParse g2 = Option.none := hfence
      simp [extractJson, h0, hff, h2, hb, hg]
  · intro h0 hfence hbrace
    cases hff : findFence t with
    | none =>
      cases hbb : findBrace t with
      | none => simp [extractJson, h0, hff, hbb]
      | some g =>
        rw [hbb] at hbrace
        have h3 : jsonParse g = Option.none := hbrace
        simp [extractJson, h0, hff, hbb, h3]
    | some g2 =>
      rw [hff] at hfence
      have h2 : jsonParse g2 = Option.none := hfence
      cases hbb : findBrace t with
      | none => simp [extractJson, h0, hff, h2, hbb]
      | some g =>
        rw [hbb] at hbrace
        have h3 : jsonParse g = Option.none := hbrace
        simp [extractJson, h0, hff, h2, hbb, h3]

/-- Claim C7 witness: a raw string that is exactly the draft JSON object
parses to that mapping unchanged via strategy one; wrapped in triple
backticks with a `json` tag it yields the same mapping via strategy two;
and a text whose only brace span holds malformed JSON extracts to
nothing — the span is not repaired. -/
theorem specC7_witness :
    extractJson exactDraftText.data = some draftVal
    ∧ extractJson fencedDraftText.data = some draftVal
    ∧ extractJson malformedSpanText.data = Option.none :=
  ⟨(specC7 exactDraftText.data).1 draftVal rfl,
   (specC7 fencedDraftText.data).2.1 rfl exactDraftText.data draftVal rfl rfl,
   (specC7 malformedSpanText.data).2.2.2 rfl trivial rfl⟩

/-! ## Claim C1 -/

/-- Claim C1: the chunk ids `ingest_text` derives from the coerced
metadata — `doc_id`, or `title`, defaulting to `"doc"`, concatenated with
`"-"` and the zero-based chunk index — are pairwise distinct within one
document, and re-ingesting the very same text and metadata into the store
produced by a first ingestion is an overwrite, not an addition: the
second ingestion reports the same `{"added": n}` and leaves the store
exactly as the first left it (in particular the store holds the same
number of chunks for that `doc_id` as after the first ingestion). -/
theorem specC1 (store : Store) (f : EmbOracle) (text : List Char)
    (md cm : List (String × PyVal)) (st1 : Store) (r1 : PyVal)
    (hc : coerceMeta md = .ok cm)
    (h1 : ingestText store f text md = .ok (st1, r1)) :
    (chunkIds cm (pyChunk text 900 150).length).Nodup
    ∧ r1 = PyVal.dict [("added", PyVal.int ((pyChunk text 900 150).length : Int))]
    ∧ ingestText st1 f text md = .ok (st1, r1)
    ∧ (∀ st2 r2, ingestText st1 f text md = .ok (st2, r2) →
        ∀ docid, countForDoc st2 docid = countForDoc st1 docid) := by
  have hcount : ingestText st1 f text md = .ok (st1, r1) →
      ∀ st2 r2, ingestText st1 f text md = .ok (st2, r2) →
        ∀ docid, countForDoc st2 docid = countForDoc st1 docid := by
    intro hsecond st2 r2 h2 docid
    rw [hsecond] at h2
    simp only [Except.ok.injEq, Prod.mk.injEq] at h2
    rw [← h2.1]
  suffices hcore : (chunkIds cm (pyChunk text 900 150).length).Nodup
      ∧ r1 = PyVal.dict [("added", PyVal.int ((pyChunk text 900 150).length : Int))]
      ∧ ingestText st1 f text md = .ok (st1, r1) by
    exact ⟨hcore.1, hcore.2.1, hcore.2.2, hcount hcore.2.2⟩
  unfold ingestText at h1 ⊢
  rw [hc] at h1 ⊢
  cases hemb : embedTexts f (pyChunk text 900 150) with
  | error e =>
    rw [hemb] at h1
    simp at h1
  | ok embs =>
    rw [hemb] at h1
    simp only [Except.ok.injEq, Prod.mk.injEq] at h1
    obtain ⟨hst, hr⟩ := h1
    subst hst
    subst hr
    refine ⟨chunkIds_nodup cm (pyChunk text 900 150).length, rfl, ?_⟩
    simp only [Except.ok.injEq, Prod.mk.injEq]
    refine ⟨?_, trivial⟩
    unfold collectionAdd
    exact upsertAll_idem
      (mkRecords (chunkIds cm (pyChunk text 900 150).length) (pyChunk text 900 150)
        embs (List.replicate (pyChunk text 900 150).length cm))
      (List.Nodup.sublist (mkRecords_ids_sublist _ _ _ _)
        (chunkIds_nodup cm (pyChunk text 900 150).length))
      store

/-- Claim C1 witness: ingesting `"hi"` under `doc_id` `"d"` once yields
the single chunk id `"d-0"`; ingesting it again against the resulting
store reports the same count and leaves the store untouched. -/
theorem specC1_witness :
    ingestText [⟨"d-0", ['h', 'i'], [], [("doc_id", PyVal.str "d")]⟩] wOracle
        ['h', 'i'] [("doc_id", PyVal.str "d")]
      = Except.ok ([⟨"d-0", ['h', 'i'], [], [("doc_id", PyVal.str "d")]⟩],
          PyVal.dict [("added", PyVal.int 1)]) :=
  (specC1 [] wOracle ['h', 'i'] [("doc_id", PyVal.str "d")]
    [("doc_id", PyVal.str "d")]
    [⟨"d-0", ['h', 'i'], [], [("doc_id", PyVal.str "d")]⟩]
    (PyVal.dict [("added", PyVal.int 1)]) rfl rfl).2.2.1

/-! ## Claim C10 -/

/-- Claim C10 (counterexample): the claim's "for every metadata mapping"
fails, because metadata is coerced before the text is chunked: on the
empty-ish text `" "` with the metadata `{"k": [datetime(...)]}` the
coercer raises (claim C2's code bug), so `ingest_text` raises instead of
returning `{"added": 0}`. -/
theorem specC10_counterexample :
    ingestText [] wOracle [' '] [("k", PyVal.list [PyVal.datetime 2024 1 1 0 0 0])]
      = Except.error "Object of type datetime is not JSON serializable"
    ∧ ¬ (ingestText [] wOracle [' ']
          [("k", PyVal.list [PyVal.datetime 2024 1 1 0 0 0])]
        = Except.ok (([] : Store), PyVal.dict [("added", PyVal.int 0)])) := by
  refine ⟨rfl, ?_⟩
  intro h
  have h2 : (Except.error "Object of type datetime is not JSON serializable"
      : Except String (Store × PyVal))
      = Except.ok (([] : Store), PyVal.dict [("added", PyVal.int 0)]) := h
  cases h2

/-- Claim C10 (amended): for every metadata mapping the coercer accepts,
ingesting a text whose first window is empty or all-whitespace is a
no-op: the chunker emits nothing, zero embeddings are requested, nothing
is stored under any id, and the result is `{"added": 0}`. -/
theorem specC10 (s : Store) (f : EmbOracle) (text : List Char)
    (md cm : List (String × PyVal)) (hc : coerceMeta md = .ok cm)
    (hws : (text.take 900).all isPySpace = true) :
    pyChunk text 900 150 = []
    ∧ numEmbedCalls f (pyChunk text 900 150) = 0
    ∧ ingestText s f text md = .ok (s, PyVal.dict [("added", PyVal.int 0)]) := by
  have hch : pyChunk text 900 150 = [] := by
    cases text with
    | nil => rfl
    | cons c cs =>
      unfold pyChunk
      rw [show (c :: cs).length = cs.length + 1 from rfl]
      exact chunkAux_stop (c :: cs) 900 _ cs.length 0 (by simp) (by simpa using hws)
  refine ⟨hch, by rw [hch]; rfl, ?_⟩
  unfold ingestText
  rw [hc, hch]
  rfl

/-- Claim C10 witness: ingesting the two-character whitespace text
`" \t"` with an accepted metadata mapping stores nothing and reports
`{"added": 0}`. -/
theorem specC10_witness :
    pyChunk [' ', '\t'] 900 150 = []
    ∧ numEmbedCalls wOracle (pyChunk [' ', '\t'] 900 150) = 0
    ∧ ingestText [] wOracle [' ', '\t'] [("title", PyVal.str "t")]
        = Except.ok ([], PyVal.dict [("added", PyVal.int 0)]) :=
  specC10 [] wOracle [' ', '\t'] [("title", PyVal.str "t")]
    [("title", PyVal.str "t")] rfl (by decide)

end QPro
